import Mathlib

/-!
Verification development for the xstate repository.

This file shallowly embeds the transition engines of the repository:

* `Fsm` — the finite state machine of `packages/xstate-fsm/src/index.ts`
  (`createMachine`, `transition`, `createUnchangedState`): a flat machine
  whose `transition` walks the transitions registered under the event type,
  applies the guard, folds the assign actions into the context and reports
  the remaining side-effect actions together with a `changed` flag.
* `Core` — the claim-relevant fragments of
  `packages/core/src/StateNode.ts`: candidate selection (`getCandidates`),
  the strict-mode and wildcard checks of `StateNode.transition`, the
  exit/entry set ordering of `getActions`, and the raised-event
  (run-to-completion) loop of `resolveTransition` /
  `resolveRaisedTransition`, rendered for a flat machine.
* `StateM` — the `State` class of the core package (`State.from`).
-/

namespace Fsm

/-- An event object of the fsm package: `{ type: string, ...payload }`,
with the payload abstracted as `data : D`. -/
structure EventObj (D : Type) where
  type : String
  data : D

/-- A normalized fsm action object: either the reserved assign action
`{ type: 'xstate.assign', assignment }` (with both the function form and
the property-assigner form of the assignment represented by its closure
`C → EventObj D → C`), or any other action object, identified by its
`type` string (`exec` payloads are not observable to `transition`). -/
inductive Action (C D : Type) where
  | assign (assignment : C → EventObj D → C)
  | exec (type : String)

/-- Whether an action object's `type` is `'xstate.assign'`. -/
def Action.isAssign {C D : Type} : Action C D → Bool
  | .assign _ => true
  | .exec _ => false

/-- The assignment closure of an assign action, if any. -/
def Action.assigner {C D : Type} : Action C D → Option (C → EventObj D → C)
  | .assign f => some f
  | .exec _ => none

/-- A normalized transition of the fsm config: the string shorthand
`'target'` is `{ target := some t, actions := [], cond := fun _ _ => true }`;
a missing `target` keeps the current state value; a missing `cond`
defaults to the always-true guard. -/
structure TransitionDef (C D : Type) where
  target : Option String
  actions : List (Action C D)
  cond : C → EventObj D → Bool

/-- `T | T[]` as it appears under an `on` event key. -/
inductive SingleOrArray (α : Type) where
  | single (item : α)
  | arr (items : List α)

/-- `toArray` of the fsm package: `undefined` becomes `[]`, a single item
becomes a one-element list. -/
def toArray {α : Type} : Option (SingleOrArray α) → List α
  | none => []
  | some (.single a) => [a]
  | some (.arr l) => l

/-- One state's config: `entry` / `exit` action lists and the `on` map.
`on` itself may be absent (`none`); an event key maps to an optional
single-or-array of optional transitions — the inner `Option` is the
explicit `undefined` (forbidden) transition of the source.  (`on` is a
reserved token in Lean, hence the field name `onConfig`.) -/
structure StateConfig (C D : Type) where
  entry : List (Action C D)
  exit : List (Action C D)
  onConfig : Option (String → Option (SingleOrArray (Option (TransitionDef C D))))

/-- The fsm machine config. -/
structure Config (C D : Type) where
  initial : String
  context : C
  states : String → Option (StateConfig C D)

/-- A state returned by the fsm `transition` (the `matches` closure is
derived from `value` and not represented). -/
structure FsmState (C D : Type) where
  value : String
  context : C
  actions : List (Action C D)
  changed : Bool

/-- `createUnchangedState` of the fsm package. -/
def createUnchangedState {C D : Type} (value : String) (context : C) : FsmState C D :=
  { value := value, context := context, actions := [], changed := false }

/-- The `.filter` pass over `allActions`: walks the action list in order;
an assign action folds its assignment into the running context (and sets
the `assigned` flag) and is removed; every other action is kept.  Returns
`(nextContext, emitted actions, assigned)`. -/
def applyActions {C D : Type} (event : EventObj D) :
    C → List (Action C D) → C × List (Action C D) × Bool
  | ctx, [] => (ctx, [], false)
  | ctx, .assign f :: rest =>
    let r := applyActions event (f ctx event) rest
    (r.1, r.2.1, true)
  | ctx, .exec t :: rest =>
    let r := applyActions event ctx rest
    (r.1, .exec t :: r.2.1, r.2.2)

/-- The `for (const transition of transitions)` loop of `transition`:
an explicit `undefined` element returns the unchanged state; the first
transition whose `cond` passes is taken — exit, transition and entry
actions are concatenated, assigns folded, and the next state built with
`changed = target !== value || allActions.length > 0 || assigned`.
The second component of the result is the loop's `assigned` flag; `none`
models the `TypeError` of reading `.entry` off a missing target state. -/
def handleTransitions {C D : Type} (cfg : Config C D) (stateConfig : StateConfig C D)
    (value : String) (context : C) (event : EventObj D) :
    List (Option (TransitionDef C D)) → Option (FsmState C D × Bool)
  | [] => some (createUnchangedState value context, false)
  | none :: _ => some (createUnchangedState value context, false)
  | some t :: rest =>
    if t.cond context event then
      let target := t.target.getD value
      match cfg.states target with
      | none => none
      | some nextStateConfig =>
        let allActions := stateConfig.exit ++ t.actions ++ nextStateConfig.entry
        let r := applyActions event context allActions
        some ({ value := target
                context := r.1
                actions := r.2.1
                changed := decide (target ≠ value) || !r.2.1.isEmpty || r.2.2 },
              r.2.2)
    else
      handleTransitions cfg stateConfig value context event rest

/-- The input to `transition`: either a state value string or a previous
state (`{ value, context }` destructured from it). -/
def inputValue {C D : Type} (state : String ⊕ FsmState C D) : String :=
  match state with
  | .inl v => v
  | .inr st => st.value

/-- The context `transition` starts from: the machine's config context for
a string input, the state's own context otherwise. -/
def inputContext {C D : Type} (cfg : Config C D) (state : String ⊕ FsmState C D) : C :=
  match state with
  | .inl _ => cfg.context
  | .inr st => st.context

/-- `machine.transition(state, event)` of the fsm package.  `none` models
a thrown error (state not found / missing target state).  The `Bool`
paired with the resulting state is the internal `assigned` flag. -/
def transition {C D : Type} (cfg : Config C D) (state : String ⊕ FsmState C D)
    (event : EventObj D) : Option (FsmState C D × Bool) :=
  let value := inputValue state
  let context := inputContext cfg state
  match cfg.states value with
  | none => none
  | some stateConfig =>
    match stateConfig.onConfig with
    | none => some (createUnchangedState value context, false)
    | some onMap =>
      handleTransitions cfg stateConfig value context event (toArray (onMap event.type))

/-- The selection the loop performs, as a standalone function: the first
transition whose guard passes, stopping early (with no selection) at an
explicit `undefined` element. -/
def selectTransition {C D : Type} (context : C) (event : EventObj D) :
    List (Option (TransitionDef C D)) → Option (TransitionDef C D)
  | [] => none
  | none :: _ => none
  | some t :: rest =>
    if t.cond context event then some t
    else selectTransition context event rest

end Fsm

namespace Core

/-- `NULL_EVENT` of `StateNode.ts`. -/
def NULL_EVENT : String := ""

/-- `WILDCARD` of `StateNode.ts`. -/
def WILDCARD : String := "*"

/-- An SCXML-wrapped event: `{ name, data }` (origin/sessionId omitted). -/
structure SEvent (D : Type) where
  name : String
  data : D

/-- A core action object, reduced to the variants the embedded fragments
dispatch on: the assign action (`type === actionTypes.assign`) with its
assignment closure, the raise action (`type === actionTypes.raise`) with
its already-resolved `_event`, and any other action identified by type. -/
inductive CAction (C D : Type) where
  | assign (assignment : C → D → C)
  | raise (ev : SEvent D)
  | custom (type : String)

/-- Whether the action's `type` is `actionTypes.assign`. -/
def CAction.isAssign {C D : Type} : CAction C D → Bool
  | .assign _ => true
  | _ => false

/-- Whether the action is partitioned into `raisedEvents`
(`action.type === actionTypes.raise`; internal sends are not modelled). -/
def CAction.isRaised {C D : Type} : CAction C D → Bool
  | .raise _ => true
  | _ => false

/-- The assignment closure of an assign action, if any. -/
def CAction.assigner {C D : Type} : CAction C D → Option (C → D → C)
  | .assign f => some f
  | _ => none

/-- A formatted transition definition (`formatTransition`): `eventType`
is the event pattern (a concrete name, the empty `NULL_EVENT` name, or
`WILDCARD`); `target = none` is a targetless transition; `cond` is the
guard predicate over `(context, eventData)`. -/
structure TransitionDef (C D : Type) where
  eventType : String
  target : Option String
  internal : Bool
  actions : List (CAction C D)
  cond : C → D → Bool

/-- A state node of the flat rendering of the core machine: its entry and
exit action lists and its formatted transitions. -/
structure StateDef (C D : Type) where
  onEntry : List (CAction C D)
  onExit : List (CAction C D)
  transitions : List (TransitionDef C D)

/-- `_transient` of `StateNode`: the node has a `NULL_EVENT` transition. -/
def StateDef.transient {C D : Type} (sd : StateDef C D) : Bool :=
  sd.transitions.any (fun t => t.eventType = NULL_EVENT)

/-- `ownEvents` of `StateNode`: event types of all transitions that are
not inert (a transition is inert when it has no target, no actions and is
internal), deduplicated as by `new Set`. -/
def StateDef.ownEvents {C D : Type} (sd : StateDef C D) : List String :=
  ((sd.transitions.filter fun t =>
      !(t.target.isNone && t.actions.isEmpty && t.internal)).map
    (fun t => t.eventType)).eraseDups

/-- A flat core machine: named state nodes, a strict flag, the machine
context and the initial state value. -/
structure Machine (C D : Type) where
  id : String
  strict : Bool
  initial : String
  context : C
  states : List (String × StateDef C D)

/-- `events` of the machine node: the union of `ownEvents` over all its
state nodes (the machine aggregates its descendants' events). -/
def Machine.events {C D : Type} (m : Machine C D) : List String :=
  ((m.states.map (fun p => p.2.ownEvents)).flatten).eraseDups

/-- `getCandidates` of `StateNode`: transitions matching the event name —
an exact `eventType` match always, and the wildcard additionally when the
event is not the null event ("null events should only match against
eventless transitions"). -/
def getCandidates {C D : Type} (transitions : List (TransitionDef C D))
    (eventName : String) : List (TransitionDef C D) :=
  let transient := eventName = NULL_EVENT
  transitions.filter fun transition =>
    let sameEventType := transition.eventType = eventName
    if transient then sameEventType
    else sameEventType || transition.eventType = WILDCARD

/-- The candidate loop of `StateNode.next`: the first candidate whose
guard passes against the pre-transition context is selected. -/
def selectCandidate {C D : Type} (context : C) (eventData : D) :
    List (TransitionDef C D) → Option (TransitionDef C D)
  | [] => none
  | t :: rest =>
    if t.cond context eventData then some t
    else selectCandidate context eventData rest

/-- The errors `StateNode.transition` can throw (in a non-production
build, as exercised by the repository's tests), plus fuel exhaustion of
the embedding's run-to-completion loop. -/
inductive CoreError where
  | wildcardEvent
  | unknownEvent (name : String)
  | missingState (value : String)
  | outOfFuel
deriving DecidableEq, Repr

/-- The observable fields of a core `State` the embedded engine
constructs: `value`, `context`, `event` (= `_event.data`), `_event`
(named `sevent`) and the emitted (non-raised) action list. -/
structure CoreState (C D : Type) where
  value : String
  context : C
  event : D
  sevent : SEvent D
  actions : List (CAction C D)

/-- The null SCXML event (`{ type: actionTypes.nullEvent }`). -/
def nullEvent {D : Type} [Inhabited D] : SEvent D :=
  { name := NULL_EVENT, data := default }

/-- Modelled from the spec: `isBuiltInEvent` of `core/src/utils.ts` is
not among the sources; per the spec's external-interface section the
built-in event names are `xstate.init`, `xstate.after(<delay>)#<nodeId>`,
`done.state.<nodeId>`, `done.invoke.<id>` and `error.platform.<id>` —
the `xstate.`-, `done.`- and `error.`-prefixed families. -/
def isBuiltInEvent (eventType : String) : Bool :=
  eventType.startsWith "xstate." || eventType.startsWith "done." ||
    eventType.startsWith "error."

/-- `StateNode.resolveRaisedTransition`: re-enters the engine (the
`step` argument stands for the recursive `this.transition` call, with
one unit of fuel consumed) with the raised (or null) event, then
restores the original event on the result and prepends the actions
accumulated so far. -/
def resolveRaisedTransition {C D : Type} (step : CoreState C D → SEvent D →
      Except CoreError (CoreState C D))
    (st : CoreState C D) (raisedEv : SEvent D) (originalEvent : SEvent D) :
    Except CoreError (CoreState C D) :=
  let currentActions := st.actions
  match step st raisedEv with
  | .error e => .error e
  | .ok st' =>
    .ok { st' with sevent := originalEvent, event := originalEvent.data,
                   actions := currentActions ++ st'.actions }

/-- The `while (raisedEvents.length)` loop of `resolveTransition`: FIFO
processing of the raised events of the current microstep, each through
`resolveRaisedTransition` (the `resolve` argument). -/
def processRaisedEvents {C D : Type} (resolve : CoreState C D → SEvent D →
      Except CoreError (CoreState C D))
    (st : CoreState C D) (raisedEvents : List (SEvent D)) :
    Except CoreError (CoreState C D) :=
  match raisedEvents with
  | [] => .ok st
  | e :: rest =>
    match resolve st e with
    | .error err => .error err
    | .ok st' => processRaisedEvents resolve st' rest

/-- `StateNode.transition` followed by `resolveTransition`, rendered for
a flat machine, with the recursion through raised events bounded by fuel
(the source loops until the raised queue drains; `outOfFuel` stands for a
non-terminating raise chain).  In document order of the source: the
wildcard-event check, the strict-mode check, candidate selection, the
canonical action list `exit ++ transition.actions ++ entry`, the
assign partition folded into the context, the raised partition removed
from the emitted actions, and — only when a transition was selected — the
transient null-event microstep followed by the raised-event loop.  When
no transition is selected the state is returned directly with no actions
and an unchanged value and context. -/
def transition {C D : Type} [Inhabited D] (m : Machine C D) (fuel : Nat)
    (st : CoreState C D) (ev : SEvent D) : Except CoreError (CoreState C D) :=
  match fuel with
  | 0 => .error .outOfFuel
  | Nat.succ fuel' =>
    if ev.name = WILDCARD then .error .wildcardEvent
    else if m.strict && !(m.events.contains ev.name) && !(isBuiltInEvent ev.name) then
      .error (.unknownEvent ev.name)
    else
      match m.states.lookup st.value with
      | none => .error (.missingState st.value)
      | some sd =>
        match selectCandidate st.context ev.data (getCandidates sd.transitions ev.name) with
        | none =>
          .ok { value := st.value, context := st.context, event := ev.data,
                sevent := ev, actions := [] }
        | some t =>
          let nextValue := t.target.getD st.value
          match m.states.lookup nextValue with
          | none => .error (.missingState nextValue)
          | some nextSd =>
            let reenter := t.target.isSome && (!t.internal || nextValue ≠ st.value)
            let exitActions := if reenter then sd.onExit else []
            let entryActions := if reenter then nextSd.onEntry else []
            let allActions := exitActions ++ t.actions ++ entryActions
            let assigners := allActions.filterMap CAction.assigner
            let updatedContext := assigners.foldl (fun c f => f c ev.data) st.context
            let otherActions := allActions.filter (fun a => !a.isAssign)
            let raisedEvents := (otherActions.filter CAction.isRaised).filterMap
              (fun a => match a with | .raise e => some e | _ => none)
            let nonRaisedActions := otherActions.filter (fun a => !a.isRaised)
            let nextState : CoreState C D :=
              { value := nextValue, context := updatedContext, event := ev.data,
                sevent := ev, actions := nonRaisedActions }
            match
              (if nextSd.transient then
                resolveRaisedTransition (transition m fuel') nextState nullEvent ev
               else .ok nextState) with
            | .error e => .error e
            | .ok st1 =>
              processRaisedEvents
                (fun s raisedEv =>
                  resolveRaisedTransition (transition m fuel') s raisedEv ev)
                st1 raisedEvents

end Core

namespace Core

/-- A state node as `getActions` manipulates it: its document `order`
(unique per node, from the pre-order DFS numbering) and its exit/entry
action and activity lists, actions identified by their type string. -/
structure SNode where
  id : String
  order : Int
  onEntry : List String
  onExit : List String
  activities : List String
deriving DecidableEq, Repr

/-- `transition.exitSet.sort((a, b) => b.order - a.order)`:
the exit set sorted by document order, descending. -/
def sortExitSet (exitSet : List SNode) : List SNode :=
  exitSet.mergeSort (fun a b => decide (b.order ≤ a.order))

/-- `transition.entrySet.sort((a, b) => a.order - b.order)`:
the entry set sorted by document order, ascending. -/
def sortEntrySet (entrySet : List SNode) : List SNode :=
  entrySet.mergeSort (fun a b => decide (a.order ≤ b.order))

/-- `Array.from(new Set(...))`: deduplication keeping the first
occurrence of each element, in iteration (insertion) order. -/
def dedupFirst : List SNode → List SNode
  | [] => []
  | a :: rest => a :: dedupFirst (rest.filter (fun b => b ≠ a))
termination_by l => l.length
decreasing_by
  exact Nat.lt_succ_of_le (List.length_filter_le _ _)

/-- The exit phase of `getActions`: for each node of the sorted,
deduplicated exit set, its `onExit` actions followed by `stop(activity)`
for each of its activities. -/
def collectExitActions (exitSet : List SNode) : List String :=
  (dedupFirst (sortExitSet exitSet)).flatMap
    (fun stateNode =>
      stateNode.onExit ++ stateNode.activities.map (fun a => "xstate.stop:" ++ a))

/-- The entry phase of `getActions`: for each node of the sorted,
deduplicated entry set, `start(activity)` for each of its activities
followed by its `onEntry` actions (the trailing raised done-events are
not modelled here). -/
def collectEntryActions (entrySet : List SNode) : List String :=
  (dedupFirst (sortEntrySet entrySet)).flatMap
    (fun stateNode =>
      stateNode.activities.map (fun a => "xstate.start:" ++ a) ++ stateNode.onEntry)

end Core

namespace StateM

/-- `initEvent` of `actions.ts`: the SCXML-wrapped `xstate.init` event. -/
def initEvent {D : Type} [Inhabited D] : Core.SEvent D :=
  { name := "xstate.init", data := default }

/-- A state value: a single key (leaf) or a mapping from keys to child
state values. -/
inductive StateValue where
  | leaf (key : String)
  | node (children : List (String × StateValue))

/-- The core `State` class, with the fields its constructor stores
(`matches`/`toStrings`/`nextEvents` are derived closures).  `history` is
a previous `State`, hence the recursive inductive. -/
inductive StateObj (C D : Type) : Type where
  | mk
    (value : StateValue)
    (context : Option C)
    (sevent : Core.SEvent D)
    (historyValue : Option StateValue)
    (history : Option (StateObj C D))
    (actions : List (Core.CAction C D))
    (activities : List (String × Bool))
    (meta : List (String × String))
    (events : List (Core.SEvent D))
    (configuration : List String)
    (transitions : List String)
    (children : List String)

/-- `state.value`. -/
def StateObj.value {C D : Type} : StateObj C D → StateValue
  | .mk v _ _ _ _ _ _ _ _ _ _ _ => v

/-- `state.context` (possibly `undefined`). -/
def StateObj.context {C D : Type} : StateObj C D → Option C
  | .mk _ c _ _ _ _ _ _ _ _ _ _ => c

/-- `state._event`. -/
def StateObj.sevent {C D : Type} : StateObj C D → Core.SEvent D
  | .mk _ _ e _ _ _ _ _ _ _ _ _ => e

/-- `state.historyValue`. -/
def StateObj.historyValue {C D : Type} : StateObj C D → Option StateValue
  | .mk _ _ _ h _ _ _ _ _ _ _ _ => h

/-- `state.history`. -/
def StateObj.history {C D : Type} : StateObj C D → Option (StateObj C D)
  | .mk _ _ _ _ h _ _ _ _ _ _ _ => h

/-- `state.actions`. -/
def StateObj.actions {C D : Type} : StateObj C D → List (Core.CAction C D)
  | .mk _ _ _ _ _ a _ _ _ _ _ _ => a

/-- `state.activities`. -/
def StateObj.activities {C D : Type} : StateObj C D → List (String × Bool)
  | .mk _ _ _ _ _ _ a _ _ _ _ _ => a

/-- `State.from(stateValue, context)`: for a `State` instance whose
context differs (`!==`) from the supplied one, a fresh `State` with the
supplied context, the copied `value`/`_event`/`historyValue`/`history`/
`activities`, no actions, and empty meta, events, configuration,
transitions and children; for a `State` instance with the identical
context, the instance itself; for a plain state value, a fresh `State`
carrying `initEvent`.  (`from` is a reserved token in Lean, hence the
name `stateFrom`.) -/
def stateFrom {C D : Type} [DecidableEq C] [Inhabited D]
    (stateValue : StateValue ⊕ StateObj C D) (context : Option C) : StateObj C D :=
  match stateValue with
  | .inr s =>
    if s.context ≠ context then
      .mk s.value context s.sevent s.historyValue s.history [] s.activities
        [] [] [] [] []
    else s
  | .inl v =>
    .mk v context initEvent none none [] [] [] [] [] [] []

end StateM

/-! ### Helper lemmas about the fsm engine -/

/-- The interleaved filter-and-fold over the action list equals: fold the
assignments (in list order) for the context, keep the non-assign actions
for the emitted list, and report whether any assign was present. -/
theorem Fsm.applyActions_eq {C D : Type} (event : Fsm.EventObj D) (ctx : C)
    (l : List (Fsm.Action C D)) :
    Fsm.applyActions event ctx l =
      ((l.filterMap Fsm.Action.assigner).foldl (fun c f => f c event) ctx,
       l.filter (fun a => !a.isAssign),
       l.any Fsm.Action.isAssign) := by
  induction l generalizing ctx with
  | nil => rfl
  | cons a rest ih =>
    cases a with
    | assign f =>
      simp [Fsm.applyActions, ih, Fsm.Action.assigner, Fsm.Action.isAssign,
        List.filterMap_cons, List.filter_cons]
    | exec t =>
      simp [Fsm.applyActions, ih, Fsm.Action.assigner, Fsm.Action.isAssign,
        List.filterMap_cons, List.filter_cons]

/-- When the loop selects no transition (guards all fail, or an explicit
`undefined` element is reached), it returns the unchanged state. -/
theorem Fsm.handleTransitions_select_none {C D : Type} (cfg : Fsm.Config C D)
    (sc : Fsm.StateConfig C D) (value : String) (ctx : C) (event : Fsm.EventObj D)
    (l : List (Option (Fsm.TransitionDef C D)))
    (h : Fsm.selectTransition ctx event l = none) :
    Fsm.handleTransitions cfg sc value ctx event l =
      some (Fsm.createUnchangedState value ctx, false) := by
  induction l with
  | nil => rfl
  | cons a rest ih =>
    cases a with
    | none => rfl
    | some t =>
      simp only [Fsm.selectTransition] at h
      simp only [Fsm.handleTransitions]
      cases hc : t.cond ctx event with
      | true => rw [hc] at h; simp at h
      | false =>
        rw [hc] at h
        simp only [Bool.false_eq_true, if_false] at h ⊢
        exact ih h

/-- When the loop selects transition `t`, it computes the next state for
`t` (or fails on a missing target state config). -/
theorem Fsm.handleTransitions_select_some {C D : Type} (cfg : Fsm.Config C D)
    (sc : Fsm.StateConfig C D) (value : String) (ctx : C) (event : Fsm.EventObj D)
    (l : List (Option (Fsm.TransitionDef C D))) (t : Fsm.TransitionDef C D)
    (h : Fsm.selectTransition ctx event l = some t) :
    Fsm.handleTransitions cfg sc value ctx event l =
      (cfg.states (t.target.getD value)).map (fun nsc =>
        let r := Fsm.applyActions event ctx (sc.exit ++ t.actions ++ nsc.entry)
        ({ value := t.target.getD value, context := r.1, actions := r.2.1,
           changed := decide (t.target.getD value ≠ value) || !r.2.1.isEmpty || r.2.2 },
         r.2.2)) := by
  induction l with
  | nil => simp [Fsm.selectTransition] at h
  | cons a rest ih =>
    cases a with
    | none => simp [Fsm.selectTransition] at h
    | some t' =>
      simp only [Fsm.selectTransition] at h
      simp only [Fsm.handleTransitions]
      by_cases hc : t'.cond ctx event = true
      · rw [if_pos hc] at h ⊢
        cases h
        cases hs : cfg.states (t.target.getD value) <;> rfl
      · rw [if_neg hc] at h ⊢
        exact ih h

/-- A closed-form description of the fsm `transition`: look up the state
config, return the unchanged state when `on` is absent or no transition
is selected, and otherwise build the next state for the selected
transition. -/
theorem Fsm.transition_eq {C D : Type} (cfg : Fsm.Config C D)
    (state : String ⊕ Fsm.FsmState C D) (event : Fsm.EventObj D) :
    Fsm.transition cfg state event =
      match cfg.states (Fsm.inputValue state) with
      | none => none
      | some sc =>
        match sc.onConfig with
        | none =>
          some (Fsm.createUnchangedState (Fsm.inputValue state)
            (Fsm.inputContext cfg state), false)
        | some onMap =>
          match Fsm.selectTransition (Fsm.inputContext cfg state) event
              (Fsm.toArray (onMap event.type)) with
          | none =>
            some (Fsm.createUnchangedState (Fsm.inputValue state)
              (Fsm.inputContext cfg state), false)
          | some t =>
            match cfg.states (t.target.getD (Fsm.inputValue state)) with
            | none => none
            | some nsc =>
              let value := Fsm.inputValue state
              let r := Fsm.applyActions event (Fsm.inputContext cfg state)
                (sc.exit ++ t.actions ++ nsc.entry)
              some ({ value := t.target.getD value, context := r.1,
                      actions := r.2.1,
                      changed := decide (t.target.getD value ≠ value) ||
                        !r.2.1.isEmpty || r.2.2 },
                    r.2.2) := by
  cases hsc : cfg.states (Fsm.inputValue state) with
  | none => simp only [Fsm.transition, hsc]
  | some sc =>
    cases hon : sc.onConfig with
    | none => simp only [Fsm.transition, hsc, hon]
    | some onMap =>
      simp only [Fsm.transition, hsc, hon]
      cases hsel : Fsm.selectTransition (Fsm.inputContext cfg state) event
          (Fsm.toArray (onMap event.type)) with
      | none =>
        exact Fsm.handleTransitions_select_none cfg sc _ _ event _ hsel
      | some t =>
        rw [Fsm.handleTransitions_select_some cfg sc _ _ event _ t hsel]
        dsimp only
        cases hns : cfg.states (t.target.getD (Fsm.inputValue state)) <;> rfl

/-! ### Concrete fsm machines used as witness inputs -/

/-- A small concrete fsm machine (traffic-light flavored) over `Nat`
context and `Unit` event payloads. -/
def Fsm.lightConfig : Fsm.Config Nat Unit :=
  { initial := "green"
    context := 0
    states := fun s =>
      if s = "green" then
        some { entry := [.exec "enterGreen"]
               exit := [.exec "exitGreen"]
               onConfig := some (fun e =>
                 if e = "TIMER" then
                   some (.single (some { target := some "yellow"
                                         actions := [.exec "setTimer"]
                                         cond := fun _ _ => true }))
                 else if e = "INC" then
                   some (.single (some { target := none
                                         actions := [.assign (fun c _ => c + 1)]
                                         cond := fun _ _ => true }))
                 else if e = "FREEZE" then none
                 else if e = "GUARDED" then
                   some (.arr [some { target := some "yellow"
                                      actions := []
                                      cond := fun c _ => decide (0 < c) }])
                 else none) }
      else if s = "yellow" then
        some { entry := [.exec "enterYellow"]
               exit := []
               onConfig := none }
      else none }

/-! ### C1 -/

/-- C1: for every state and event the fsm `transition` accepts, the
returned state's `changed` flag is `true` iff at least one assign action
was applied during the step (the `assigned` flag), or the returned value
differs from the input state's value, or the emitted action list is
non-empty. -/
theorem C1_changed_iff {C D : Type} (cfg : Fsm.Config C D)
    (state : String ⊕ Fsm.FsmState C D) (event : Fsm.EventObj D)
    (st : Fsm.FsmState C D) (assigned : Bool)
    (h : Fsm.transition cfg state event = some (st, assigned)) :
    st.changed = true ↔
      (assigned = true ∨ st.value ≠ Fsm.inputValue state ∨ st.actions ≠ []) := by
  rw [Fsm.transition_eq] at h
  split at h
  · exact absurd h (by simp)
  · split at h
    · simp only [Option.some.injEq, Prod.mk.injEq] at h
      obtain ⟨h1, h2⟩ := h
      subst h2
      rw [← h1]
      simp [Fsm.createUnchangedState]
    · split at h
      · simp only [Option.some.injEq, Prod.mk.injEq] at h
        obtain ⟨h1, h2⟩ := h
        subst h2
        rw [← h1]
        simp [Fsm.createUnchangedState]
      · split at h
        · exact absurd h (by simp)
        · simp only [Option.some.injEq, Prod.mk.injEq] at h
          obtain ⟨h1, h2⟩ := h
          subst h2
          rw [← h1]
          simp only [Bool.or_eq_true, decide_eq_true_eq, Bool.not_eq_true',
            List.isEmpty_eq_false]
          tauto

/-- Witness for C1 at a concrete input: the `TIMER` step from `green`. -/
theorem C1_changed_iff_witness :
    Fsm.transition Fsm.lightConfig (.inl "green") ⟨"TIMER", ()⟩ =
      some ({ value := "yellow", context := 0,
              actions := [.exec "exitGreen", .exec "setTimer", .exec "enterYellow"],
              changed := true }, false) ∧
    (({ value := "yellow", context := 0,
        actions := [.exec "exitGreen", .exec "setTimer", .exec "enterYellow"],
        changed := true } : Fsm.FsmState Nat Unit).changed = true ↔
      (false = true ∨
        ({ value := "yellow", context := 0,
           actions := [.exec "exitGreen", .exec "setTimer", .exec "enterYellow"],
           changed := true } : Fsm.FsmState Nat Unit).value ≠
          Fsm.inputValue (Sum.inl "green" : String ⊕ Fsm.FsmState Nat Unit) ∨
        ({ value := "yellow", context := 0,
           actions := [.exec "exitGreen", .exec "setTimer", .exec "enterYellow"],
           changed := true } : Fsm.FsmState Nat Unit).actions ≠ [])) :=
  ⟨rfl, C1_changed_iff Fsm.lightConfig (.inl "green") ⟨"TIMER", ()⟩ _ false rfl⟩

/-! ### C2 -/

/-- C2: when the event matches no transition of the current state (no
candidate is selected by the loop), the fsm `transition` returns a state
with the same value, the same context and an empty emitted action list. -/
theorem C2_no_transition_unchanged {C D : Type} (cfg : Fsm.Config C D)
    (state : String ⊕ Fsm.FsmState C D) (event : Fsm.EventObj D)
    (sc : Fsm.StateConfig C D)
    (hsc : cfg.states (Fsm.inputValue state) = some sc)
    (hsel : ∀ onMap, sc.onConfig = some onMap →
      Fsm.selectTransition (Fsm.inputContext cfg state) event
        (Fsm.toArray (onMap event.type)) = none) :
    ∃ st : Fsm.FsmState C D,
      Fsm.transition cfg state event = some (st, false) ∧
      st.value = Fsm.inputValue state ∧
      st.context = Fsm.inputContext cfg state ∧
      st.actions = [] := by
  refine ⟨Fsm.createUnchangedState (Fsm.inputValue state) (Fsm.inputContext cfg state),
    ?_, rfl, rfl, rfl⟩
  rw [Fsm.transition_eq, hsc]
  dsimp only
  cases hon : sc.onConfig with
  | none => rfl
  | some onMap =>
    dsimp only
    rw [hsel onMap hon]

/-- Witness for C2 at a concrete input: the guarded transition from
`green` whose guard fails at context `0`. -/
theorem C2_no_transition_unchanged_witness :
    ∃ st : Fsm.FsmState Nat Unit,
      Fsm.transition Fsm.lightConfig (Sum.inl "green") ⟨"GUARDED", ()⟩ =
        some (st, false) ∧
      st.value = Fsm.inputValue (Sum.inl "green" : String ⊕ Fsm.FsmState Nat Unit) ∧
      st.context = Fsm.inputContext Fsm.lightConfig (Sum.inl "green") ∧
      st.actions = [] :=
  C2_no_transition_unchanged Fsm.lightConfig (Sum.inl "green") ⟨"GUARDED", ()⟩ _ rfl
    (by intro onMap h; cases h; rfl)

/-! ### C3 -/

/-- C3: the assign actions of the canonical action list are folded into
the context in list order — the fold starts from the pre-step context,
so the first assign sees it and each later assign sees the previous
result — the emitted list is the non-assign sublist, and consequently no
assign action ever appears in the action list returned by `transition`. -/
theorem C3_assign_fold (C D : Type) :
    (∀ (event : Fsm.EventObj D) (ctx : C) (l : List (Fsm.Action C D)),
      (Fsm.applyActions event ctx l).1 =
        (l.filterMap Fsm.Action.assigner).foldl (fun c f => f c event) ctx ∧
      (Fsm.applyActions event ctx l).2.1 = l.filter (fun a => !a.isAssign)) ∧
    (∀ (cfg : Fsm.Config C D) (state : String ⊕ Fsm.FsmState C D)
        (event : Fsm.EventObj D) (st : Fsm.FsmState C D) (assigned : Bool),
      Fsm.transition cfg state event = some (st, assigned) →
      ∀ a ∈ st.actions, a.isAssign = false) := by
  constructor
  · intro event ctx l
    rw [Fsm.applyActions_eq]
    exact ⟨rfl, rfl⟩
  · intro cfg state event st assigned h a ha
    rw [Fsm.transition_eq] at h
    split at h
    · exact absurd h (by simp)
    · split at h
      · simp only [Option.some.injEq, Prod.mk.injEq] at h
        rw [← h.1] at ha
        simp [Fsm.createUnchangedState] at ha
      · split at h
        · simp only [Option.some.injEq, Prod.mk.injEq] at h
          rw [← h.1] at ha
          simp [Fsm.createUnchangedState] at ha
        · split at h
          · exact absurd h (by simp)
          · simp only [Option.some.injEq, Prod.mk.injEq] at h
            rw [← h.1] at ha
            simp only [Fsm.applyActions_eq] at ha
            simpa using List.of_mem_filter ha

/-- Witness for C3 at a concrete input: the `INC` self-step on `green`
applies the assign (context `0` becomes `1`) and emits no assign. -/
theorem C3_assign_fold_witness :
    Fsm.transition Fsm.lightConfig (Sum.inl "green") ⟨"INC", ()⟩ =
      some ({ value := "green", context := 1,
              actions := [.exec "exitGreen", .exec "enterGreen"],
              changed := true }, true) ∧
    (∀ a ∈ ({ value := "green", context := 1,
              actions := [.exec "exitGreen", .exec "enterGreen"],
              changed := true } : Fsm.FsmState Nat Unit).actions,
      a.isAssign = false) :=
  ⟨rfl, fun a ha =>
    (C3_assign_fold Nat Unit).2 Fsm.lightConfig (Sum.inl "green") ⟨"INC", ()⟩ _ true rfl a ha⟩

/-! ### C4 -/

/-- C4: when the loop selects transition `t`, the produced action list is
exactly the source state's exit actions, then `t`'s own actions, then the
target state's entry actions — in that phase order — with the assign
actions removed from the emitted list. -/
theorem C4_action_phases {C D : Type} (cfg : Fsm.Config C D)
    (state : String ⊕ Fsm.FsmState C D) (event : Fsm.EventObj D)
    (sc nsc : Fsm.StateConfig C D)
    (onMap : String → Option (Fsm.SingleOrArray (Option (Fsm.TransitionDef C D))))
    (t : Fsm.TransitionDef C D) (st : Fsm.FsmState C D) (assigned : Bool)
    (hsc : cfg.states (Fsm.inputValue state) = some sc)
    (hon : sc.onConfig = some onMap)
    (hsel : Fsm.selectTransition (Fsm.inputContext cfg state) event
      (Fsm.toArray (onMap event.type)) = some t)
    (hnsc : cfg.states (t.target.getD (Fsm.inputValue state)) = some nsc)
    (h : Fsm.transition cfg state event = some (st, assigned)) :
    st.actions = (sc.exit ++ t.actions ++ nsc.entry).filter (fun a => !a.isAssign) := by
  rw [Fsm.transition_eq, hsc] at h
  dsimp only at h
  rw [hon] at h
  dsimp only at h
  rw [hsel] at h
  dsimp only at h
  rw [hnsc] at h
  dsimp only at h
  simp only [Option.some.injEq, Prod.mk.injEq] at h
  rw [← h.1]
  simp only [Fsm.applyActions_eq]

/-- Witness for C4 at a concrete input: the `TIMER` step from `green`
emits `exit` actions, then the transition's action, then `entry`
actions. -/
theorem C4_action_phases_witness :
    Fsm.transition Fsm.lightConfig (Sum.inl "green") ⟨"TIMER", ()⟩ =
      some ({ value := "yellow", context := 0,
              actions := [.exec "exitGreen", .exec "setTimer", .exec "enterYellow"],
              changed := true }, false) ∧
    ({ value := "yellow", context := 0,
       actions := [.exec "exitGreen", .exec "setTimer", .exec "enterYellow"],
       changed := true } : Fsm.FsmState Nat Unit).actions =
      ([Fsm.Action.exec "exitGreen"] ++ [Fsm.Action.exec "setTimer"] ++
        [Fsm.Action.exec "enterYellow"]).filter (fun a => !a.isAssign) :=
  ⟨rfl, C4_action_phases Fsm.lightConfig (Sum.inl "green") ⟨"TIMER", ()⟩ _ _ _ _ _ false
    rfl rfl rfl rfl rfl⟩

/-! ### C7 -/

/-- C7: an explicit `undefined` entry under the event key is a forbidden
transition — the event is silently consumed: same value, same context,
no actions, `changed` false. -/
theorem C7_forbidden_transition {C D : Type} (cfg : Fsm.Config C D)
    (state : String ⊕ Fsm.FsmState C D) (event : Fsm.EventObj D)
    (sc : Fsm.StateConfig C D)
    (onMap : String → Option (Fsm.SingleOrArray (Option (Fsm.TransitionDef C D))))
    (hsc : cfg.states (Fsm.inputValue state) = some sc)
    (hon : sc.onConfig = some onMap)
    (hforbidden : onMap event.type = none) :
    ∃ st : Fsm.FsmState C D,
      Fsm.transition cfg state event = some (st, false) ∧
      st.value = Fsm.inputValue state ∧
      st.context = Fsm.inputContext cfg state ∧
      st.actions = [] ∧
      st.changed = false := by
  refine ⟨Fsm.createUnchangedState (Fsm.inputValue state) (Fsm.inputContext cfg state),
    ?_, rfl, rfl, rfl, rfl⟩
  rw [Fsm.transition_eq, hsc]
  dsimp only
  rw [hon]
  dsimp only
  rw [hforbidden]
  rfl

/-- Witness for C7 at a concrete input: the explicitly-`undefined`
`FREEZE` entry on `green`. -/
theorem C7_forbidden_transition_witness :
    ∃ st : Fsm.FsmState Nat Unit,
      Fsm.transition Fsm.lightConfig (Sum.inl "green") ⟨"FREEZE", ()⟩ =
        some (st, false) ∧
      st.value = Fsm.inputValue (Sum.inl "green" : String ⊕ Fsm.FsmState Nat Unit) ∧
      st.context = Fsm.inputContext Fsm.lightConfig (Sum.inl "green") ∧
      st.actions = [] ∧
      st.changed = false :=
  C7_forbidden_transition Fsm.lightConfig (Sum.inl "green") ⟨"FREEZE", ()⟩ _ _ rfl rfl rfl

/-! ### Helper lemmas about the exit/entry set ordering -/

/-- `dedupFirst` is the identity on duplicate-free lists. -/
theorem Core.dedupFirst_eq_self (l : List Core.SNode) (h : l.Nodup) :
    Core.dedupFirst l = l := by
  induction l with
  | nil => simp [Core.dedupFirst]
  | cons a rest ih =>
    rw [Core.dedupFirst]
    have hfilter : rest.filter (fun b => b ≠ a) = rest := by
      rw [List.filter_eq_self]
      intro b hb
      simp only [ne_eq, decide_eq_true_eq]
      exact fun hba => (List.nodup_cons.mp h).1 (hba ▸ hb)
    rw [hfilter, ih (List.nodup_cons.mp h).2]

/-- The sorted exit set is a permutation of the exit set. -/
theorem Core.sortExitSet_perm (l : List Core.SNode) : (Core.sortExitSet l).Perm l :=
  List.mergeSort_perm l _

/-- The sorted entry set is a permutation of the entry set. -/
theorem Core.sortEntrySet_perm (l : List Core.SNode) : (Core.sortEntrySet l).Perm l :=
  List.mergeSort_perm l _

/-- The sorted exit set is sorted by `order`, descending (weakly). -/
theorem Core.sortExitSet_sorted (l : List Core.SNode) :
    (Core.sortExitSet l).Sorted (fun a b => b.order ≤ a.order) := by
  have h := @List.sorted_mergeSort Core.SNode
    (fun a b : Core.SNode => decide (b.order ≤ a.order))
    (fun a b c h1 h2 => by
      simp only [decide_eq_true_eq] at h1 h2 ⊢; omega)
    (fun a b => by
      simp only [Bool.or_eq_true, decide_eq_true_eq]; omega)
    l
  exact h.imp (fun hab => by simpa using hab)

/-- The sorted entry set is sorted by `order`, ascending (weakly). -/
theorem Core.sortEntrySet_sorted (l : List Core.SNode) :
    (Core.sortEntrySet l).Sorted (fun a b => a.order ≤ b.order) := by
  have h := @List.sorted_mergeSort Core.SNode
    (fun a b : Core.SNode => decide (a.order ≤ b.order))
    (fun a b c h1 h2 => by
      simp only [decide_eq_true_eq] at h1 h2 ⊢; omega)
    (fun a b => by
      simp only [Bool.or_eq_true, decide_eq_true_eq]; omega)
    l
  exact h.imp (fun hab => by simpa using hab)

/-- With pairwise-distinct orders the sorted exit set is strictly
descending. -/
theorem Core.sortExitSet_sorted_strict (l : List Core.SNode)
    (h : l.Pairwise (fun a b => a.order ≠ b.order)) :
    (Core.sortExitSet l).Sorted (fun a b => b.order < a.order) := by
  have hd : (Core.sortExitSet l).Pairwise (fun a b => a.order ≠ b.order) :=
    (List.Perm.pairwise_iff (fun hxy => Ne.symm hxy) (Core.sortExitSet_perm l)).mpr h
  exact ((Core.sortExitSet_sorted l).and hd).imp
    (fun hab => lt_of_le_of_ne hab.1 (Ne.symm hab.2))

/-- With pairwise-distinct orders the sorted entry set is strictly
ascending. -/
theorem Core.sortEntrySet_sorted_strict (l : List Core.SNode)
    (h : l.Pairwise (fun a b => a.order ≠ b.order)) :
    (Core.sortEntrySet l).Sorted (fun a b => a.order < b.order) := by
  have hd : (Core.sortEntrySet l).Pairwise (fun a b => a.order ≠ b.order) :=
    (List.Perm.pairwise_iff (fun hxy => Ne.symm hxy) (Core.sortEntrySet_perm l)).mpr h
  exact ((Core.sortEntrySet_sorted l).and hd).imp
    (fun hab => lt_of_le_of_ne hab.1 hab.2)

/-! ### C5 -/

/-- C5: the exit set is sorted by document `order` strictly descending
and the entry set strictly ascending; both are permutations of the input
set; under the unique-order invariant the sorted result is independent of
insertion order (ties are broken by `order` alone); and the collected
exit/entry actions follow exactly these sorted orders. -/
theorem C5_exit_entry_sorted (l : List Core.SNode)
    (hdist : l.Pairwise (fun a b => a.order ≠ b.order)) :
    (Core.sortExitSet l).Sorted (fun a b => b.order < a.order) ∧
    (Core.sortEntrySet l).Sorted (fun a b => a.order < b.order) ∧
    (Core.sortExitSet l).Perm l ∧
    (Core.sortEntrySet l).Perm l ∧
    (∀ l', l.Perm l' →
      Core.sortExitSet l = Core.sortExitSet l' ∧
      Core.sortEntrySet l = Core.sortEntrySet l') ∧
    Core.collectExitActions l =
      (Core.sortExitSet l).flatMap
        (fun stateNode => stateNode.onExit ++
          stateNode.activities.map (fun a => "xstate.stop:" ++ a)) ∧
    Core.collectEntryActions l =
      (Core.sortEntrySet l).flatMap
        (fun stateNode => stateNode.activities.map (fun a => "xstate.start:" ++ a) ++
          stateNode.onEntry) := by
  have hnodup : l.Nodup :=
    hdist.imp (fun hab => fun he => hab (congrArg Core.SNode.order he))
  refine ⟨Core.sortExitSet_sorted_strict l hdist,
          Core.sortEntrySet_sorted_strict l hdist,
          Core.sortExitSet_perm l, Core.sortEntrySet_perm l, ?_, ?_, ?_⟩
  · intro l' hperm
    have hdist' : l'.Pairwise (fun a b => a.order ≠ b.order) :=
      (List.Perm.pairwise_iff (fun hxy => Ne.symm hxy) hperm).mp hdist
    constructor
    · haveI : IsAntisymm Core.SNode (fun a b => b.order < a.order) :=
        ⟨fun a b h1 h2 => absurd (lt_trans h1 h2) (lt_irrefl _)⟩
      exact List.eq_of_perm_of_sorted
        ((Core.sortExitSet_perm l).trans (hperm.trans (Core.sortExitSet_perm l').symm))
        (Core.sortExitSet_sorted_strict l hdist)
        (Core.sortExitSet_sorted_strict l' hdist')
    · haveI : IsAntisymm Core.SNode (fun a b => a.order < b.order) :=
        ⟨fun a b h1 h2 => absurd (lt_trans h1 h2) (lt_irrefl _)⟩
      exact List.eq_of_perm_of_sorted
        ((Core.sortEntrySet_perm l).trans (hperm.trans (Core.sortEntrySet_perm l').symm))
        (Core.sortEntrySet_sorted_strict l hdist)
        (Core.sortEntrySet_sorted_strict l' hdist')
  · rw [Core.collectExitActions, Core.dedupFirst_eq_self _
      ((Core.sortExitSet_perm l).nodup_iff.mpr hnodup)]
  · rw [Core.collectEntryActions, Core.dedupFirst_eq_self _
      ((Core.sortEntrySet_perm l).nodup_iff.mpr hnodup)]

/-- Witness for C5: a three-node set in scrambled insertion order, and
the same set inserted in a different order. -/
theorem C5_exit_entry_sorted_witness :
    ([⟨"b", 2, [], [], []⟩, ⟨"c", 3, [], [], []⟩, ⟨"a", 1, [], [], []⟩] :
      List Core.SNode).Pairwise (fun a b => a.order ≠ b.order) ∧
    (Core.sortExitSet
      [⟨"b", 2, [], [], []⟩, ⟨"c", 3, [], [], []⟩, ⟨"a", 1, [], [], []⟩]).Sorted
      (fun a b => b.order < a.order) ∧
    Core.sortExitSet
      [⟨"b", 2, [], [], []⟩, ⟨"c", 3, [], [], []⟩, ⟨"a", 1, [], [], []⟩] =
      Core.sortExitSet
        [⟨"a", 1, [], [], []⟩, ⟨"b", 2, [], [], []⟩, ⟨"c", 3, [], [], []⟩] :=
  ⟨by decide,
   (C5_exit_entry_sorted _ (by decide)).1,
   ((C5_exit_entry_sorted _ (by decide)).2.2.2.2.1 _ (by decide)).1⟩

/-! ### C9 -/

/-- C9: for the null (empty-name) event only transitions whose event
pattern is exactly the empty name are candidates — in particular the
wildcard is never a candidate for the null event — while for any
non-null event both exact-name and wildcard transitions are candidates. -/
theorem C9_null_event_candidates (C D : Type) :
    (∀ (ts : List (Core.TransitionDef C D)) (t : Core.TransitionDef C D),
      t ∈ Core.getCandidates ts Core.NULL_EVENT ↔
        (t ∈ ts ∧ t.eventType = Core.NULL_EVENT)) ∧
    (∀ (ts : List (Core.TransitionDef C D)) (t : Core.TransitionDef C D)
        (name : String), name ≠ Core.NULL_EVENT →
      (t ∈ Core.getCandidates ts name ↔
        (t ∈ ts ∧ (t.eventType = name ∨ t.eventType = Core.WILDCARD)))) := by
  constructor
  · intro ts t
    simp [Core.getCandidates, List.mem_filter]
  · intro ts t name hname
    simp [Core.getCandidates, List.mem_filter, hname]

/-- A concrete wildcard transition used as a witness input. -/
def Core.wildTransition : Core.TransitionDef Nat Unit :=
  { eventType := "*", target := some "yellow", internal := false,
    actions := [], cond := fun _ _ => true }

/-- Witness for C9 at a concrete input: the wildcard transition is a
candidate for `FOO` but not for the null event. -/
theorem C9_null_event_candidates_witness :
    ("FOO" ≠ Core.NULL_EVENT) ∧
    (Core.wildTransition ∈ Core.getCandidates [Core.wildTransition] "FOO" ↔
      (Core.wildTransition ∈ [Core.wildTransition] ∧
        (Core.wildTransition.eventType = "FOO" ∨
         Core.wildTransition.eventType = Core.WILDCARD))) :=
  ⟨by decide,
   (C9_null_event_candidates Nat Unit).2 [Core.wildTransition] Core.wildTransition
     "FOO" (by decide)⟩

/-! ### C8 -/

/-- A concrete strict machine, after the strict-mode tests: `green` with
a `TIMER` transition to `yellow`. -/
def Core.strictMachine : Core.Machine Nat Unit :=
  { id := "light", strict := true, initial := "green", context := 0,
    states :=
      [("green",
        { onEntry := [.custom "enter_green"], onExit := [.custom "exit_green"],
          transitions := [{ eventType := "TIMER", target := some "yellow",
                            internal := false, actions := [],
                            cond := fun _ _ => true }] }),
       ("yellow",
        { onEntry := [.custom "enter_yellow"], onExit := [],
          transitions := [] })] }

/-- A concrete current state for the strict machine. -/
def Core.greenState : Core.CoreState Nat Unit :=
  { value := "green", context := 0, event := (),
    sevent := { name := "xstate.init", data := () }, actions := [] }

/-- C8 counterexample: the reserved wildcard name `*` is neither in the
strict machine's declared event set nor a built-in event name, yet
`transition` throws the wildcard-type error, not `UnknownEvent`. -/
theorem C8_strict_wildcard_counterexample :
    Core.strictMachine.strict = true ∧
    Core.strictMachine.events.contains "*" = false ∧
    Core.isBuiltInEvent "*" = false ∧
    Core.transition Core.strictMachine 2 Core.greenState ⟨"*", ()⟩ =
      Except.error Core.CoreError.wildcardEvent ∧
    Core.transition Core.strictMachine 2 Core.greenState ⟨"*", ()⟩ ≠
      Except.error (Core.CoreError.unknownEvent "*") := by
  refine ⟨rfl, rfl, rfl, rfl, ?_⟩
  intro h
  rw [show Core.transition Core.strictMachine 2 Core.greenState ⟨"*", ()⟩ =
    Except.error Core.CoreError.wildcardEvent from rfl] at h
  simp at h

/-- C8 as amended: for a strict machine, an event whose name is neither
declared nor built-in — and is not the reserved wildcard `*`, which
raises the wildcard-type error instead — makes `transition` throw
`UnknownEvent`. -/
theorem C8_strict_unknown_event {C D : Type} [Inhabited D] (m : Core.Machine C D)
    (fuel : Nat) (st : Core.CoreState C D) (ev : Core.SEvent D)
    (hstrict : m.strict = true)
    (hmem : m.events.contains ev.name = false)
    (hbuiltin : Core.isBuiltInEvent ev.name = false)
    (hwild : ev.name ≠ Core.WILDCARD) :
    Core.transition m (fuel + 1) st ev =
      Except.error (Core.CoreError.unknownEvent ev.name) := by
  rw [Core.transition]
  rw [if_neg hwild, if_pos (by rw [hstrict, hmem, hbuiltin]; rfl)]

/-- Witness for the amended C8 at a concrete input: the undeclared event
`FOO` on the strict machine. -/
theorem C8_strict_unknown_event_witness :
    Core.strictMachine.strict = true ∧
    Core.strictMachine.events.contains "FOO" = false ∧
    Core.isBuiltInEvent "FOO" = false ∧
    ("FOO" : String) ≠ Core.WILDCARD ∧
    Core.transition Core.strictMachine (1 + 1) Core.greenState ⟨"FOO", ()⟩ =
      Except.error (Core.CoreError.unknownEvent "FOO") :=
  ⟨rfl, rfl, rfl, by decide,
   C8_strict_unknown_event Core.strictMachine 1 Core.greenState ⟨"FOO", ()⟩
     rfl rfl rfl (by decide)⟩

/-! ### Helper lemmas about the raised-event loop -/

/-- `resolveRaisedTransition` always restores the original event on the
state it returns. -/
theorem Core.resolveRaisedTransition_sevent {C D : Type}
    (step : Core.CoreState C D → Core.SEvent D → Except Core.CoreError (Core.CoreState C D))
    (st : Core.CoreState C D) (raisedEv originalEvent : Core.SEvent D)
    (st' : Core.CoreState C D)
    (h : Core.resolveRaisedTransition step st raisedEv originalEvent = .ok st') :
    st'.sevent = originalEvent ∧ st'.event = originalEvent.data := by
  rw [Core.resolveRaisedTransition] at h
  split at h
  · exact absurd h (by simp)
  · simp only [Except.ok.injEq] at h
    rw [← h]
    exact ⟨rfl, rfl⟩

/-- The raised-event loop preserves "the state carries the original
event" whenever each `resolve` step establishes it. -/
theorem Core.processRaisedEvents_sevent {C D : Type}
    (resolve : Core.CoreState C D → Core.SEvent D → Except Core.CoreError (Core.CoreState C D))
    (originalEvent : Core.SEvent D)
    (hres : ∀ s e s', resolve s e = .ok s' →
      s'.sevent = originalEvent ∧ s'.event = originalEvent.data)
    (events : List (Core.SEvent D)) (st st' : Core.CoreState C D)
    (hst : st.sevent = originalEvent ∧ st.event = originalEvent.data)
    (h : Core.processRaisedEvents resolve st events = .ok st') :
    st'.sevent = originalEvent ∧ st'.event = originalEvent.data := by
  induction events generalizing st with
  | nil =>
    rw [Core.processRaisedEvents] at h
    simp only [Except.ok.injEq] at h
    rw [← h]
    exact hst
  | cons e rest ih =>
    rw [Core.processRaisedEvents] at h
    split at h
    · exact absurd h (by simp)
    · rename_i s2 heq
      exact ih s2 (hres st e s2 heq) h

/-! ### C6 -/

/-- C6: whatever internal (transient null or raised) events are processed
after the external event, a successful `transition` returns a state whose
observable event attributes (`_event` and `event`) are the original
external event, not the last internal one. -/
theorem C6_original_event_preserved {C D : Type} [Inhabited D] (m : Core.Machine C D)
    (fuel : Nat) (st : Core.CoreState C D) (ev : Core.SEvent D)
    (st' : Core.CoreState C D)
    (h : Core.transition m fuel st ev = .ok st') :
    st'.sevent = ev ∧ st'.event = ev.data := by
  cases fuel with
  | zero => exact absurd h (by simp [Core.transition])
  | succ fuel' =>
    rw [Core.transition] at h
    split at h
    · exact absurd h (by simp)
    · split at h
      · exact absurd h (by simp)
      · split at h
        · exact absurd h (by simp)
        · split at h
          · simp only [Except.ok.injEq] at h
            rw [← h]
            exact ⟨rfl, rfl⟩
          · dsimp only at h
            split at h
            · exact absurd h (by simp)
            · split at h
              · exact absurd h (by simp)
              · rename_i st1 heq
                refine Core.processRaisedEvents_sevent _ ev ?_ _ _ st' ?_ h
                · intro s e s' hstep
                  exact Core.resolveRaisedTransition_sevent _ s e ev s' hstep
                · split at heq
                  · exact Core.resolveRaisedTransition_sevent _ _ _ ev st1 heq
                  · simp only [Except.ok.injEq] at heq
                    rw [← heq]
                    exact ⟨rfl, rfl⟩

/-- A machine with a raised-event chain: `E` moves `a` to `b` raising
`F`, and `F` moves `b` to `c`. -/
def Core.raiseMachine : Core.Machine Nat Unit :=
  { id := "raiser", strict := false, initial := "a", context := 0,
    states :=
      [("a", { onEntry := [], onExit := [],
               transitions := [{ eventType := "E", target := some "b",
                                 internal := false,
                                 actions := [.raise { name := "F", data := () }],
                                 cond := fun _ _ => true }] }),
       ("b", { onEntry := [], onExit := [],
               transitions := [{ eventType := "F", target := some "c",
                                 internal := false, actions := [],
                                 cond := fun _ _ => true }] }),
       ("c", { onEntry := [], onExit := [], transitions := [] })] }

/-- A concrete current state for the raise machine. -/
def Core.stateA : Core.CoreState Nat Unit :=
  { value := "a", context := 0, event := (),
    sevent := { name := "xstate.init", data := () }, actions := [] }

/-- Witness for C6 at a concrete input: the `E` macrostep processes the
raised `F` internally, ends in `c`, and still reports `E` as its event. -/
theorem C6_original_event_preserved_witness :
    Core.transition Core.raiseMachine 3 Core.stateA ⟨"E", ()⟩ =
      Except.ok ({ value := "c", context := 0, event := (),
                   sevent := { name := "E", data := () }, actions := [] } :
        Core.CoreState Nat Unit) ∧
    ({ value := "c", context := 0, event := (),
       sevent := { name := "E", data := () }, actions := [] } :
      Core.CoreState Nat Unit).sevent = ⟨"E", ()⟩ ∧
    ({ value := "c", context := 0, event := (),
       sevent := { name := "E", data := () }, actions := [] } :
      Core.CoreState Nat Unit).event = () :=
  ⟨rfl,
   (C6_original_event_preserved Core.raiseMachine 3 Core.stateA ⟨"E", ()⟩ _ rfl).1,
   (C6_original_event_preserved Core.raiseMachine 3 Core.stateA ⟨"E", ()⟩ _ rfl).2⟩

/-! ### C10 -/

/-- C10: `State.from` applied to a `State` instance returns that very
instance (nothing rebuilt) when the supplied context is identical to the
state's context; only when the contexts differ does it build a new
`State` — one with the supplied context, the copied value, `_event`,
history and activities, and an empty actions list. -/
theorem C10_state_from_identity {C D : Type} [DecidableEq C] [Inhabited D]
    (s : StateM.StateObj C D) (c : Option C) :
    (s.context = c → StateM.stateFrom (.inr s) c = s) ∧
    (s.context ≠ c →
      StateM.stateFrom (.inr s) c =
        .mk s.value c s.sevent s.historyValue s.history [] s.activities
          [] [] [] [] [] ∧
      (StateM.stateFrom (.inr s) c).actions = []) := by
  constructor
  · intro hc
    have hne : ¬ s.context ≠ c := fun hcontra => hcontra hc
    simp only [StateM.stateFrom, if_neg hne]
  · intro hc
    refine ⟨?_, ?_⟩
    · simp only [StateM.stateFrom, if_pos hc]
    · simp only [StateM.stateFrom, if_pos hc]
      rfl

/-- A concrete `State` instance used as witness input. -/
def StateM.sampleState : StateM.StateObj Nat Unit :=
  .mk (.leaf "green") (some 1) { name := "TIMER", data := () } none none
    [.custom "enter_green"] [("timer", true)] [] [] [] [] []

/-- Witness for C10 at a concrete input: the identical context returns
the same instance; a different context yields a state with no actions. -/
theorem C10_state_from_identity_witness :
    StateM.stateFrom (.inr StateM.sampleState) (some 1) = StateM.sampleState ∧
    (StateM.stateFrom (.inr StateM.sampleState) (some 2)).actions = [] :=
  ⟨(C10_state_from_identity StateM.sampleState (some 1)).1 rfl,
   ((C10_state_from_identity StateM.sampleState (some 2)).2 (by decide)).2⟩
